import Mathlib

/-!
Shallow embedding of `src/generate_image.py` (Krea image generation /
enhancement driver) and verification of the frozen claims about it.

Conventions of the embedding:
* Python strings are Lean `String` / `List Char`; Python truthiness of a
  string (`if not s`) is modelled by comparison with the empty string, and
  `os.getenv` results are `Option String` (absent variable = `none`).
* The job-status HTTP endpoint is modelled as a status sequence
  `Nat → JobStatus` giving the status returned by the i-th poll request
  (the claims under test quantify over all such sequences).
* The filesystem is modelled where needed as an existence predicate
  `String → Bool`.
* The `elapsed` counter of the polling loops is the code's own `elapsed`
  variable (a sum of sleep intervals), exactly as in the source.
-/

/-! ### Job polling (generate_image lines 369-396, upscale_image lines 558-584, upscale_bloom lines 734-760) -/

/-- Status string returned by the job-status endpoint, as branched on by the
source: `"completed"`, `"failed"`, `"cancelled"`, or anything else
(`other`), which keeps the loop polling. -/
inductive JobStatus where
  | completed
  | failed
  | cancelled
  | other (s : String)
deriving DecidableEq

/-- Outcome of one polling loop: normal break on `"completed"`, a raised
error on `"failed"` / `"cancelled"`, or the `while`-`else` timeout. -/
inductive PollResult where
  | done
  | jobFailed
  | jobCancelled
  | timedOut
deriving DecidableEq

def isTerminal : JobStatus → Bool
  | JobStatus.completed => true
  | JobStatus.failed => true
  | JobStatus.cancelled => true
  | JobStatus.other _ => false

/-- One polling loop of the source, started at iteration `i` (so the code's
`elapsed` variable holds `i * interval`):

`while elapsed < max_wait: fetch status; completed => break;
failed/cancelled => raise; otherwise sleep(interval); elapsed += interval`
`else: raise timeout`.

The returned `Nat` is the value of `elapsed` when the loop ends.  The
`0 < interval` guard only closes off the (never exercised) zero-interval
case, in which the source loop would never terminate; every call site uses
interval 2 or 5. -/
def pollFrom (statuses : Nat → JobStatus) (interval maxWait : Nat) (i : Nat) :
    PollResult × Nat :=
  if h : i * interval < maxWait then
    match statuses i with
    | JobStatus.completed => (PollResult.done, i * interval)
    | JobStatus.failed => (PollResult.jobFailed, i * interval)
    | JobStatus.cancelled => (PollResult.jobCancelled, i * interval)
    | JobStatus.other _ =>
      if hpos : 0 < interval then
        pollFrom statuses interval maxWait (i + 1)
      else
        (PollResult.timedOut, i * interval)
  else
    (PollResult.timedOut, i * interval)
termination_by maxWait - i * interval
decreasing_by
  have hmul : (i + 1) * interval = i * interval + interval := by ring
  omega

/-- The polling loop as entered by the source: `elapsed = 0`. -/
def pollLoop (statuses : Nat → JobStatus) (interval maxWait : Nat) :
    PollResult × Nat :=
  pollFrom statuses interval maxWait 0

/-- Poll interval for generation and Topaz enhancement (lines 371, 560). -/
def GEN_POLL_INTERVAL : Nat := 2

/-- Max wait for generation and Topaz enhancement (lines 370, 559). -/
def GEN_MAX_WAIT : Nat := 120

/-- Poll interval for Bloom enhancement (line 736). -/
def BLOOM_POLL_INTERVAL : Nat := 5

/-- Max wait for Bloom enhancement (line 735). -/
def BLOOM_MAX_WAIT : Nat := 300

/-! ### Submission response handling (lines 352-365, 541-554, 716-729)

The same four-check cascade appears verbatim in `generate_image`,
`upscale_image` and `upscale_bloom`:
`401 => invalid API key; 402 => insufficient credits;
status != 200 => API request failed (with raw body);
no job_id in parsed body => no-job_id error; else proceed`.
`data.get("job_id")` is modelled as `Option String`; Python's falsiness
check `if not job_id` also rejects an empty-string id. -/

inductive SubmitOutcome where
  | authError
  | billingError
  | apiError (code : Nat) (body : String)
  | submissionError
  | accepted (jobId : String)
deriving DecidableEq

def submitOutcome (code : Nat) (body : String) (jobId : Option String) :
    SubmitOutcome :=
  if code = 401 then SubmitOutcome.authError
  else if code = 402 then SubmitOutcome.billingError
  else if code ≠ 200 then SubmitOutcome.apiError code body
  else
    match jobId with
    | none => SubmitOutcome.submissionError
    | some j => if j = "" then SubmitOutcome.submissionError else SubmitOutcome.accepted j

/-! ### Target dimension computation (upscale_image lines 514-516, upscale_bloom lines 687-689) -/

inductive Engine where
  | topaz
  | bloom
deriving DecidableEq

/-- Engine-specific dimension cap: 22000 for Topaz (line 515), 10000 for
Bloom (line 688). -/
def engineCap : Engine → Nat
  | Engine.topaz => 22000
  | Engine.bloom => 10000

/-- Target dimension `min(source_dim * scale_factor, cap)`, applied
independently to width and height at both enhancement call sites. -/
def targetDim (sourceDim scaleFactor : Nat) (e : Engine) : Nat :=
  min (sourceDim * scaleFactor) (engineCap e)

/-! ### Preset catalog and engine selection (lines 58-171, 1016-1018, 1069-1072) -/

/-- Topaz parameter bundle of a preset. -/
structure TopazParams where
  model : String
  sharpen : ℚ
  denoise : ℚ
  fix_compression : ℚ
  face_enhancement : Bool

/-- Bloom parameter bundle of a preset. -/
structure BloomParams where
  creativity : Nat
  face_preservation : Bool
  color_preservation : Bool

/-- One entry of `UPSCALE_PRESETS`. -/
structure Preset where
  description : String
  engine : Engine
  topaz : TopazParams
  bloom : BloomParams

/-- Keys of the `UPSCALE_PRESETS` table (also the argparse choices of
`--preset`, line 1020). -/
inductive PresetKey where
  | portrait
  | photo
  | artwork
  | cgi
  | lowres
  | text
  | creative
deriving DecidableEq

/-- The `UPSCALE_PRESETS` table (lines 58-171). -/
def UPSCALE_PRESETS : PresetKey → Preset
  | PresetKey.portrait =>
    { description := "Portrait photograph (face preservation enabled)"
      engine := Engine.topaz
      topaz := { model := "High Fidelity V2", sharpen := 0.4, denoise := 0.3,
                 fix_compression := 0.4, face_enhancement := true }
      bloom := { creativity := 2, face_preservation := true, color_preservation := true } }
  | PresetKey.photo =>
    { description := "General photograph (realistic, preserve details)"
      engine := Engine.topaz
      topaz := { model := "High Fidelity V2", sharpen := 0.5, denoise := 0.3,
                 fix_compression := 0.5, face_enhancement := false }
      bloom := { creativity := 2, face_preservation := false, color_preservation := true } }
  | PresetKey.artwork =>
    { description := "Digital art, illustration, or AI-generated image"
      engine := Engine.topaz
      topaz := { model := "Standard V2", sharpen := 0.6, denoise := 0.2,
                 fix_compression := 0.3, face_enhancement := false }
      bloom := { creativity := 4, face_preservation := false, color_preservation := false } }
  | PresetKey.cgi =>
    { description := "3D render or CGI content"
      engine := Engine.topaz
      topaz := { model := "CGI", sharpen := 0.5, denoise := 0.1,
                 fix_compression := 0.2, face_enhancement := false }
      bloom := { creativity := 3, face_preservation := false, color_preservation := true } }
  | PresetKey.lowres =>
    { description := "Low resolution or heavily compressed source"
      engine := Engine.bloom
      topaz := { model := "Low Resolution V2", sharpen := 0.3, denoise := 0.7,
                 fix_compression := 0.8, face_enhancement := false }
      bloom := { creativity := 5, face_preservation := false, color_preservation := false } }
  | PresetKey.text =>
    { description := "Image with important text/typography"
      engine := Engine.topaz
      topaz := { model := "Text Refine", sharpen := 0.7, denoise := 0.2,
                 fix_compression := 0.5, face_enhancement := false }
      bloom := { creativity := 1, face_preservation := false, color_preservation := true } }
  | PresetKey.creative =>
    { description := "Creative reimagining (adds details, more artistic)"
      engine := Engine.bloom
      topaz := { model := "Standard V2", sharpen := 0.5, denoise := 0.3,
                 fix_compression := 0.5, face_enhancement := false }
      bloom := { creativity := 6, face_preservation := false, color_preservation := false } }

/-- The argparse default of `--engine` (line 1016): `"topaz"`.  The parsed
value carries no flag telling whether the user typed it explicitly. -/
def DEFAULT_ENGINE : Engine := Engine.topaz

/-- Engine selection of the CLI preset path (line 1071):
`engine = args.engine if args.engine != "topaz" else preset["engine"]`. -/
def selectPresetEngine (presetEngine argsEngine : Engine) : Engine :=
  if argsEngine ≠ Engine.topaz then argsEngine else presetEngine

/-! ### Slugify (lines 281-296)

Character classes follow the Python regexes over the ASCII range; the
`lower()` call and the whitespace classes are modelled on ASCII (any
non-ASCII character is removed by the `[^a-z0-9\s-]` substitution in the
source as well). -/

/-- Whitespace as matched by Python's `\s` / `str.strip()` (ASCII range). -/
def isPyWhitespace (c : Char) : Bool :=
  c = ' ' || c = '\t' || c = '\n' || c = '\r' || c = '\x0b' || c = '\x0c'

/-- Characters in `[a-z0-9]`. -/
def isLowerAlnum (c : Char) : Bool :=
  ('a' ≤ c && c ≤ 'z') || ('0' ≤ c && c ≤ '9')

/-- Characters surviving `re.sub(r'[^a-z0-9\s-]', '', slug)`. -/
def isKeptChar (c : Char) : Bool :=
  isLowerAlnum c || isPyWhitespace c || c = '-'

/-- Character class of `re.sub(r'[\s_]+', '-', slug)`. -/
def isWsOrUnderscore (c : Char) : Bool :=
  isPyWhitespace c || c = '_'

def isHyphen (c : Char) : Bool := c = '-'

/-- Model of `s.strip(chars)`: drop characters satisfying `p` from both
ends. -/
def stripChars (p : Char → Bool) (l : List Char) : List Char :=
  ((l.dropWhile p).reverse.dropWhile p).reverse

/-- Model of `re.sub(r'X+', r, s)` for a character class `X = p`: every
maximal run of characters satisfying `p` is replaced by the single
character `r`. -/
def collapseRuns (p : Char → Bool) (r : Char) : List Char → List Char
  | [] => []
  | c :: cs =>
    match cs with
    | [] => if p c then [r] else [c]
    | c₂ :: _ =>
      if p c && p c₂ then collapseRuns p r cs
      else (if p c then r else c) :: collapseRuns p r cs

/-- Model of `t.rsplit('-', 1)[0]`: everything before the last hyphen, or
the whole list when it has no hyphen. -/
def rsplitBeforeLastHyphen (l : List Char) : List Char :=
  if l.contains '-' then
    ((l.reverse.dropWhile (fun c => !(isHyphen c))).drop 1).reverse
  else l

/-- Lines 284-292 of `slugify`: lowercase and strip, remove special
characters, collapse whitespace/underscores to hyphens, collapse hyphen
runs, strip leading/trailing hyphens (the state of `slug` just before
truncation). -/
def slugPre (text : List Char) : List Char :=
  stripChars isHyphen
    (collapseRuns isHyphen '-'
      (collapseRuns isWsOrUnderscore '-'
        ((stripChars isPyWhitespace (text.map Char.toLower)).filter isKeptChar)))

/-- Lines 294-295: `if len(slug) > max_length: slug = slug[:max_length].rsplit('-', 1)[0]`. -/
def slugClean (maxLength : Nat) (text : List Char) : List Char :=
  if (slugPre text).length > maxLength then
    rsplitBeforeLastHyphen ((slugPre text).take maxLength)
  else slugPre text

/-- The full `slugify(text, max_length=50)` including the line-296 fallback
`return slug or "image"`. -/
def slugify (text : String) (maxLength : Nat := 50) : String :=
  if (slugClean maxLength text.data).isEmpty then "image"
  else ⟨slugClean maxLength text.data⟩

/-- Characters allowed in a slug body: lowercase alphanumerics and the
hyphen (used to state the claimed output invariants). -/
def isSlugChar (c : Char) : Bool := isLowerAlnum c || c = '-'

/-- No two adjacent characters of the list are both hyphens (the claimed
"single, non-consecutive hyphens" invariant). -/
def noAdjacentHyphens (l : List Char) : Prop :=
  List.Chain' (fun a b => ¬(a = '-' ∧ b = '-')) l

/-! ### Output extension resolution -/

/-- Model of Python's substring test `needle in hay`. -/
def containsSub (needle : List Char) : List Char → Bool
  | [] => needle.isEmpty
  | c :: cs => needle.isPrefixOf (c :: cs) || containsSub needle cs

/-- Model of `hay.__contains__(needle)` on strings (`"png" in content_type`). -/
def strContains (hay needle : String) : Bool :=
  containsSub needle.data hay.data

/-- Model of `s.endswith(suffix)`. -/
def strEndsWith (s suffix : String) : Bool :=
  suffix.data.isSuffixOf s.data

/-- Model of `s.startswith(prefixStr)`. -/
def strStartsWith (s prefixStr : String) : Bool :=
  prefixStr.data.isPrefixOf s.data

/-- Extension choice of the generation path (lines 412-419): `".png"` if
the content type contains `"png"` or the URL ends in `".png"`, else
`".webp"` by the analogous test, else `".jpg"`. -/
def pickExtGenerate (contentType imageUrl : String) : String :=
  if strContains contentType "png" || strEndsWith imageUrl ".png" then ".png"
  else if strContains contentType "webp" || strEndsWith imageUrl ".webp" then ".webp"
  else ".jpg"

/-- Extension choice of both upscale paths (lines 600-601 and 776-777):
`ext = f".{output_format}" if output_format != "jpg" else ".jpg"` — the
requested output format alone decides; content type and URL are unused. -/
def pickExtUpscale (outputFormat : String) : String :=
  if outputFormat ≠ "jpg" then "." ++ outputFormat else ".jpg"

/-! ### FTP upload configuration (lines 31-36 and 193-196) -/

/-- Relevant part of the process environment: values of the five FTP
variables (`none` = variable absent). -/
structure FtpEnv where
  host : Option String
  user : Option String
  password : Option String
  remotePath : Option String
  publicUrl : Option String

/-- Python truthiness of a string. -/
def pyTruthy (s : String) : Bool := !(s == "")

/-- Truthiness of an `os.getenv(...)` result with no default. -/
def optTruthy : Option String → Bool
  | none => false
  | some s => pyTruthy s

/-- Line 35: `FTP_REMOTE_PATH = os.getenv("FTP_REMOTE_PATH", "/")`. -/
def FTP_REMOTE_PATH (e : FtpEnv) : String := e.remotePath.getD "/"

/-- Line 36: `FTP_PUBLIC_URL = os.getenv("FTP_PUBLIC_URL", "")`. -/
def FTP_PUBLIC_URL (e : FtpEnv) : String := e.publicUrl.getD ""

/-- Line 193: `all([FTP_HOST, FTP_USER, FTP_PASS, FTP_PUBLIC_URL])`. -/
def uploadConfigOk (e : FtpEnv) : Bool :=
  optTruthy e.host && optTruthy e.user && optTruthy e.password &&
    pyTruthy (FTP_PUBLIC_URL e)

inductive UploadCheck where
  | configError
  | proceed
deriving DecidableEq

/-- The configuration guard of `upload_to_ftp` (lines 193-196), which runs
before any file or network access. -/
def uploadPrecheck (e : FtpEnv) : UploadCheck :=
  if uploadConfigOk e then UploadCheck.proceed else UploadCheck.configError

/-! ### Provenance store (lines 174-177 with call sites 456-460, 634-637, 810-813) -/

/-- Persisted provenance state: the lines of `generation_log.jsonl` and the
content of `.last_image.json` (records at serialized-record granularity;
the log stores the compact serialization, the latest file the indented one
of the same record). -/
structure ProvState where
  log : List String
  latest : Option String

/-- Lines 174-177: append one serialized record as one line of the log. -/
def log_generation (s : ProvState) (entry : String) : ProvState :=
  { s with log := s.log ++ [entry] }

/-- One record operation as performed at each of the three call sites:
`log_generation(log_entry)` followed by
`LAST_IMAGE_FILE.write_text(json.dumps(log_entry, ...))` with the same
entry. -/
def recordProvenance (s : ProvState) (entry : String) : ProvState :=
  let s₁ := log_generation s entry
  { s₁ with latest := some entry }

/-! ### Input resolution (lines 251-278) -/

/-- Lines 251-253: `path.startswith(('http://', 'https://'))`. -/
def is_url (path : String) : Bool :=
  strStartsWith path "http://" || strStartsWith path "https://"

/-- Lines 256-260, with the filesystem abstracted as an existence
predicate: URLs are never local files; otherwise `Path(path).exists()`. -/
def is_local_file (fsExists : String → Bool) (path : String) : Bool :=
  if is_url path then false else fsExists path

/-- Possible outcomes of `resolve_image_url`. -/
inductive ResolveResult where
  | url (u : String)
  | uploaded (localPath : String)
  | invalidPath
deriving DecidableEq

/-- Lines 263-278: return URLs unchanged, upload existing local files,
otherwise raise. -/
def resolve_image_url (fsExists : String → Bool) (path : String) : ResolveResult :=
  if is_url path then ResolveResult.url path
  else if is_local_file fsExists path then ResolveResult.uploaded path
  else ResolveResult.invalidPath

/-! ## Theorems -/

/-- Helper: the `elapsed` value at which a polling loop ends stays below
`maxWait + interval`, for any starting iteration within that budget. -/
theorem pollFrom_elapsed_lt (statuses : Nat → JobStatus) (interval maxWait : Nat) :
    ∀ i, i * interval < maxWait + interval →
      (pollFrom statuses interval maxWait i).2 < maxWait + interval := by
  suffices h : ∀ n i, maxWait - i * interval ≤ n → i * interval < maxWait + interval →
      (pollFrom statuses interval maxWait i).2 < maxWait + interval by
    intro i hi
    exact h (maxWait - i * interval) i le_rfl hi
  intro n
  induction n with
  | zero =>
    intro i hn hi
    rw [pollFrom, dif_neg (by omega)]
    exact hi
  | succ n ih =>
    intro i hn hi
    by_cases hlt : i * interval < maxWait
    · rw [pollFrom, dif_pos hlt]
      have hmul : (i + 1) * interval = i * interval + interval := by ring
      rcases hst : statuses i with _ | _ | _ | s <;> dsimp only
      · omega
      · omega
      · omega
      · split
        · exact ih (i + 1) (by omega) (by omega)
        · omega
    · rw [pollFrom, dif_neg hlt]
      exact hi

/-- Helper: a polling loop ends in the timeout outcome exactly when none of
the statuses it samples (iterations `j` with `j * interval < maxWait`) is
terminal. -/
theorem pollFrom_timedOut_iff (statuses : Nat → JobStatus) (interval maxWait : Nat)
    (hpos : 0 < interval) :
    ∀ i, ((pollFrom statuses interval maxWait i).1 = PollResult.timedOut ↔
      ∀ j, i ≤ j → j * interval < maxWait → isTerminal (statuses j) = false) := by
  suffices h : ∀ n i, maxWait - i * interval ≤ n →
      ((pollFrom statuses interval maxWait i).1 = PollResult.timedOut ↔
        ∀ j, i ≤ j → j * interval < maxWait → isTerminal (statuses j) = false) by
    intro i
    exact h (maxWait - i * interval) i le_rfl
  intro n
  induction n with
  | zero =>
    intro i hn
    rw [pollFrom, dif_neg (by omega)]
    constructor
    · intro _ j hij hj
      have hmono : i * interval ≤ j * interval := Nat.mul_le_mul_right _ hij
      omega
    · intro _
      rfl
  | succ n ih =>
    intro i hn
    by_cases hlt : i * interval < maxWait
    · rw [pollFrom, dif_pos hlt]
      have hmul : (i + 1) * interval = i * interval + interval := by ring
      rcases hst : statuses i with _ | _ | _ | s <;> dsimp only
      · constructor
        · intro hc
          exact absurd hc (by simp)
        · intro hr
          have hterm := hr i le_rfl hlt
          rw [hst] at hterm
          simp [isTerminal] at hterm
      · constructor
        · intro hc
          exact absurd hc (by simp)
        · intro hr
          have hterm := hr i le_rfl hlt
          rw [hst] at hterm
          simp [isTerminal] at hterm
      · constructor
        · intro hc
          exact absurd hc (by simp)
        · intro hr
          have hterm := hr i le_rfl hlt
          rw [hst] at hterm
          simp [isTerminal] at hterm
      · rw [dif_pos hpos, ih (i + 1) (by omega)]
        constructor
        · intro hr j hij hj
          rcases Nat.eq_or_lt_of_le hij with heq | hlt2
          · subst heq
            rw [hst]
            rfl
          · exact hr j hlt2 hj
        · intro hr j hij hj
          exact hr j (Nat.le_of_succ_le hij) hj
    · rw [pollFrom, dif_neg hlt]
      constructor
      · intro _ j hij hj
        have hmono : i * interval ≤ j * interval := Nat.mul_le_mul_right _ hij
        omega
      · intro _
        rfl

/-- C2: for either polling configuration of the source — interval 2s and
budget 120s for generation and Topaz enhancement, interval 5s and budget
300s for Bloom enhancement — and for every status sequence, the loop's
elapsed counter at exit stays within `maxWait` plus one poll interval, and
the timeout error is raised exactly when no sampled status within the
budget is terminal. -/
theorem pollLoop_spec :
    ∀ statuses : Nat → JobStatus,
      ((pollLoop statuses GEN_POLL_INTERVAL GEN_MAX_WAIT).2 ≤
          GEN_MAX_WAIT + GEN_POLL_INTERVAL ∧
        ((pollLoop statuses GEN_POLL_INTERVAL GEN_MAX_WAIT).1 = PollResult.timedOut ↔
          ∀ j, j * GEN_POLL_INTERVAL < GEN_MAX_WAIT → isTerminal (statuses j) = false)) ∧
      ((pollLoop statuses BLOOM_POLL_INTERVAL BLOOM_MAX_WAIT).2 ≤
          BLOOM_MAX_WAIT + BLOOM_POLL_INTERVAL ∧
        ((pollLoop statuses BLOOM_POLL_INTERVAL BLOOM_MAX_WAIT).1 = PollResult.timedOut ↔
          ∀ j, j * BLOOM_POLL_INTERVAL < BLOOM_MAX_WAIT → isTerminal (statuses j) = false)) := by
  intro statuses
  refine ⟨⟨?_, ?_⟩, ⟨?_, ?_⟩⟩
  · exact le_of_lt (pollFrom_elapsed_lt statuses GEN_POLL_INTERVAL GEN_MAX_WAIT 0 (by decide))
  · simpa using pollFrom_timedOut_iff statuses GEN_POLL_INTERVAL GEN_MAX_WAIT (by decide) 0
  · exact le_of_lt (pollFrom_elapsed_lt statuses BLOOM_POLL_INTERVAL BLOOM_MAX_WAIT 0 (by decide))
  · simpa using pollFrom_timedOut_iff statuses BLOOM_POLL_INTERVAL BLOOM_MAX_WAIT (by decide) 0

/-- C2 witness: a job that reports completed at the very first poll does
not time out. -/
theorem pollLoop_spec_witness :
    (pollLoop (fun _ => JobStatus.completed) GEN_POLL_INTERVAL GEN_MAX_WAIT).1 ≠
      PollResult.timedOut := by
  intro hto
  have h := ((pollLoop_spec (fun _ => JobStatus.completed)).1.2).mp hto 0 (by decide)
  simp [isTerminal] at h

/-- C1 counterexample: with the `lowres` preset (recommended engine bloom)
and the engine argument `topaz` — which is exactly what the parser
delivers when the user explicitly selects `--engine topaz`, since `topaz`
is also the argparse default — the preset path picks the bloom engine, not
the user's topaz choice.  The claimed "every explicit user-selected engine
override takes precedence" therefore fails. -/
theorem presetEngine_override_counterexample :
    selectPresetEngine (UPSCALE_PRESETS PresetKey.lowres).engine Engine.topaz = Engine.bloom ∧
    Engine.bloom ≠ Engine.topaz := by
  exact ⟨rfl, by decide⟩

/-- C1 amended: when the engine argument is left at its default (`topaz`),
the preset's recommended engine is used; a user-selected `bloom` engine
always takes precedence; but a selected `topaz` engine is
indistinguishable from the default, so the preset's recommendation is used
in that case as well (in particular `topaz` over a bloom-recommending
preset is ignored). -/
theorem presetEngine_selection :
    (∀ k : PresetKey,
      selectPresetEngine (UPSCALE_PRESETS k).engine DEFAULT_ENGINE =
        (UPSCALE_PRESETS k).engine) ∧
    (∀ presetEngine : Engine,
      selectPresetEngine presetEngine Engine.bloom = Engine.bloom) ∧
    (∀ k : PresetKey,
      selectPresetEngine (UPSCALE_PRESETS k).engine Engine.topaz =
        (UPSCALE_PRESETS k).engine) := by
  refine ⟨fun k => rfl, fun presetEngine => rfl, fun k => rfl⟩

/-- C3 counterexample: a 2xx (but not 200) submission response that does
contain a job identifier still fails, with the generic API error — the
source compares `response.status_code != 200`, not "non-2xx". -/
theorem submitOutcome_2xx_counterexample :
    submitOutcome 201 "created" (some "abc123") = SubmitOutcome.apiError 201 "created" ∧
    submitOutcome 201 "created" (some "abc123") ≠ SubmitOutcome.accepted "abc123" := by
  exact ⟨rfl, by decide⟩

/-- C3 amended: for every submission response, 401 fails with the
authentication error, 402 with the billing error, any other status
different from 200 (2xx included) with the generic API error carrying the
raw body; a 200 response without a (non-empty) job identifier fails with
the submission error, and a 200 response with a non-empty job identifier
is accepted. -/
theorem submitOutcome_cases :
    ∀ (code : Nat) (body : String) (jobId : Option String),
      (code = 401 → submitOutcome code body jobId = SubmitOutcome.authError) ∧
      (code ≠ 401 → code = 402 →
        submitOutcome code body jobId = SubmitOutcome.billingError) ∧
      (code ≠ 401 → code ≠ 402 → code ≠ 200 →
        submitOutcome code body jobId = SubmitOutcome.apiError code body) ∧
      (code = 200 → jobId = none →
        submitOutcome code body jobId = SubmitOutcome.submissionError) ∧
      (code = 200 → jobId = some "" →
        submitOutcome code body jobId = SubmitOutcome.submissionError) ∧
      (∀ j : String, code = 200 → jobId = some j → j ≠ "" →
        submitOutcome code body jobId = SubmitOutcome.accepted j) := by
  intro code body jobId
  refine ⟨fun h => ?_, fun h1 h2 => ?_, fun h1 h2 h3 => ?_,
          fun h hj => ?_, fun h hj => ?_, fun j h hj hne => ?_⟩
  · subst h; rfl
  · subst h2; rfl
  · unfold submitOutcome
    rw [if_neg h1, if_neg h2, if_pos h3]
  · subst h; subst hj; rfl
  · subst h; subst hj; rfl
  · subst h; subst hj
    simp [submitOutcome, hne]

/-- C3 amended, witness: a 200 response carrying job id `"j1"` is
accepted. -/
theorem submitOutcome_cases_witness :
    submitOutcome 200 "ok" (some "j1") = SubmitOutcome.accepted "j1" :=
  ((submitOutcome_cases 200 "ok" (some "j1")).2.2.2.2.2) "j1" rfl rfl (by decide)

/-- C4: each target dimension is `min(sourceDim * scaleFactor, cap)` with
cap 22000 for the topaz engine and 10000 for the bloom engine; the result
never exceeds the cap, is monotone in the scale factor, and the quoted
example clamps: source 1024, scale 32, topaz gives 22000. -/
theorem targetDim_spec :
    (∀ (src s₁ s₂ : Nat) (e : Engine),
      targetDim src s₁ e = min (src * s₁) (engineCap e) ∧
      targetDim src s₁ e ≤ engineCap e ∧
      (s₁ ≤ s₂ → targetDim src s₁ e ≤ targetDim src s₂ e)) ∧
    engineCap Engine.topaz = 22000 ∧ engineCap Engine.bloom = 10000 ∧
    targetDim 1024 32 Engine.topaz = 22000 := by
  refine ⟨fun src s₁ s₂ e => ⟨rfl, min_le_right _ _, fun h => ?_⟩, rfl, rfl, by decide⟩
  exact min_le_min (Nat.mul_le_mul le_rfl h) le_rfl

/-- C4 witness: monotonicity instantiated at source 1024, scales 2 ≤ 4,
topaz engine. -/
theorem targetDim_spec_witness :
    targetDim 1024 2 Engine.topaz ≤ targetDim 1024 4 Engine.topaz :=
  ((targetDim_spec.1 1024 2 4 Engine.topaz).2.2) (by decide)

/-- C7 counterexample: the claimed "content type first, URL only as
fallback" rule fails twice on the code.  In the generation path a declared
content type of `image/webp` is overridden by a URL ending in `.png`
(the code tests the png alternatives before ever looking at webp), and in
both upscale paths the extension comes from the requested output format
alone — `pickExtUpscale "webp" = ".webp"` regardless of any declared
content type (such as `image/png`, which per the claim would have to give
`".png"`). -/
theorem pickExt_counterexample :
    pickExtGenerate "image/webp" "https://cdn.example/img.png" = ".png" ∧
    (".png" : String) ≠ ".webp" ∧
    pickExtUpscale "webp" = ".webp" ∧
    pickExtGenerate "image/png" "https://cdn.example/img" = ".png" := by
  refine ⟨by decide, by decide, by decide, by decide⟩

/-- C7 amended: in the generation path the extension is `".png"` when the
content type contains `"png"` or the URL ends in `".png"`; otherwise
`".webp"` by the analogous webp test; otherwise `".jpg"` (so the png test
mixes content type and URL and precedes the webp test, rather than content
type strictly preceding URL sniffing).  The upscale paths instead derive
the extension from the requested output format alone: `".jpg"` for `jpg`,
`"." ++ format` otherwise. -/
theorem pickExt_spec :
    ∀ (ct url fmt : String),
      ((strContains ct "png" || strEndsWith url ".png") = true →
        pickExtGenerate ct url = ".png") ∧
      ((strContains ct "png" || strEndsWith url ".png") = false →
        (strContains ct "webp" || strEndsWith url ".webp") = true →
        pickExtGenerate ct url = ".webp") ∧
      ((strContains ct "png" || strEndsWith url ".png") = false →
        (strContains ct "webp" || strEndsWith url ".webp") = false →
        pickExtGenerate ct url = ".jpg") ∧
      (fmt = "jpg" → pickExtUpscale fmt = ".jpg") ∧
      (fmt ≠ "jpg" → pickExtUpscale fmt = "." ++ fmt) := by
  intro ct url fmt
  refine ⟨fun h => ?_, fun h1 h2 => ?_, fun h1 h2 => ?_, fun h => ?_, fun h => ?_⟩
  · simp [pickExtGenerate, h]
  · simp [pickExtGenerate, h1, h2]
  · simp [pickExtGenerate, h1, h2]
  · subst h; rfl
  · simp [pickExtUpscale, h]

/-- C7 amended, witness: a jpeg content type with a URL ending in `.webp`
resolves to `".webp"`. -/
theorem pickExt_spec_witness :
    pickExtGenerate "image/jpeg" "https://cdn.example/x.webp" = ".webp" :=
  ((pickExt_spec "image/jpeg" "https://cdn.example/x.webp" "jpg").2.1)
    (by decide) (by decide)

/-- C8 counterexample: with host, user, password and public URL configured
but the remote base path variable absent (it silently defaults to "/"),
`upload_to_ftp`'s configuration guard passes — no configuration error is
raised, contradicting the claim that the absence of the remote base path
fails before any network attempt. -/
theorem uploadPrecheck_remotePath_counterexample :
    uploadPrecheck { host := some "ftp.example.com", user := some "alice",
                     password := some "secret", remotePath := none,
                     publicUrl := some "https://cdn.example.com" } = UploadCheck.proceed ∧
    UploadCheck.proceed ≠ UploadCheck.configError := by
  exact ⟨rfl, by decide⟩

/-- C8 amended: the upload operation requires host, user, password and
public base URL; the absence (or emptiness) of any one of those four
causes the configuration error before any network attempt, and the remote
base path never influences the check (it defaults to "/"). -/
theorem uploadPrecheck_spec :
    ∀ e : FtpEnv,
      (uploadPrecheck e = UploadCheck.configError ↔
        (optTruthy e.host = false ∨ optTruthy e.user = false ∨
         optTruthy e.password = false ∨ pyTruthy (FTP_PUBLIC_URL e) = false)) ∧
      (∀ rp : Option String, uploadPrecheck { e with remotePath := rp } = uploadPrecheck e) := by
  intro e
  refine ⟨⟨fun h => ?_, fun h => ?_⟩, fun rp => rfl⟩
  · by_contra hc
    push_neg at hc
    obtain ⟨h1, h2, h3, h4⟩ := hc
    rw [Bool.ne_false_iff] at h1 h2 h3 h4
    simp [uploadPrecheck, uploadConfigOk, h1, h2, h3, h4] at h
  · rcases h with h | h | h | h <;> simp [uploadPrecheck, uploadConfigOk, h]

/-- C8 amended, witness: an absent host alone triggers the configuration
error. -/
theorem uploadPrecheck_spec_witness :
    uploadPrecheck { host := none, user := some "u", password := some "p",
                     remotePath := some "/img", publicUrl := some "https://cdn" } =
      UploadCheck.configError :=
  (uploadPrecheck_spec _).1.mpr (Or.inl rfl)

/-- C9: each record operation appends exactly one serialized record to the
end of the append-only log (leaving prior lines unchanged) and overwrites
the single latest-record file with that same record; a second operation
shows last-writer-wins on the latest file while the log keeps both
records in order. -/
theorem recordProvenance_spec :
    ∀ (s : ProvState) (entry : String),
      (recordProvenance s entry).log = s.log ++ [entry] ∧
      (recordProvenance s entry).latest = some entry ∧
      (∀ e₂ : String,
        (recordProvenance (recordProvenance s entry) e₂).log = s.log ++ [entry] ++ [e₂] ∧
        (recordProvenance (recordProvenance s entry) e₂).latest = some e₂) := by
  intro s entry
  exact ⟨rfl, rfl, fun e₂ => ⟨rfl, rfl⟩⟩

/-- C10: every string starting with "http://" or "https://" is classified
as a URL with no further validation and returned unchanged by
`resolve_image_url` (no upload), regardless of the filesystem — so URL
classification takes precedence over local-file existence; the bare
string "http://" and strings containing spaces are concrete instances. -/
theorem resolve_url_spec :
    (∀ (fsExists : String → Bool) (path : String),
      is_url path = true →
        resolve_image_url fsExists path = ResolveResult.url path ∧
        is_local_file fsExists path = false) ∧
    is_url "http://" = true ∧
    is_url "http://not a well formed url" = true ∧
    resolve_image_url (fun _ => true) "http://" = ResolveResult.url "http://" ∧
    is_url "relative/path.png" = false := by
  refine ⟨fun fs path h => ⟨?_, ?_⟩, by decide, by decide, by decide, by decide⟩
  · simp [resolve_image_url, h]
  · simp [is_local_file, h]

/-- C10 witness: a prefix-classified URL containing a space is returned
unchanged even when every path exists on the filesystem. -/
theorem resolve_url_spec_witness :
    resolve_image_url (fun _ => true) "https://example.com/a b.png" =
      ResolveResult.url "https://example.com/a b.png" :=
  ((resolve_url_spec.1 (fun _ => true) "https://example.com/a b.png") (by decide)).1

/-! ### Helper lemmas for the slugify claims -/

/-- Helper: numeric characterization of `isSlugChar`. -/
theorem isSlugChar_toNat {c : Char} (h : isSlugChar c = true) :
    (97 ≤ c.toNat ∧ c.toNat ≤ 122) ∨ (48 ≤ c.toNat ∧ c.toNat ≤ 57) ∨ c.toNat = 45 := by
  simp only [isSlugChar, isLowerAlnum, Bool.or_eq_true, Bool.and_eq_true,
    decide_eq_true_eq] at h
  rcases h with (⟨h1, h2⟩ | ⟨h1, h2⟩) | h3
  · rw [Char.le_def, UInt32.le_def, BitVec.le_def] at h1 h2
    exact Or.inl ⟨h1, h2⟩
  · rw [Char.le_def, UInt32.le_def, BitVec.le_def] at h1 h2
    exact Or.inr (Or.inl ⟨h1, h2⟩)
  · subst h3
    exact Or.inr (Or.inr rfl)

/-- Helper: a slug character differs from any character outside the slug
ranges. -/
theorem isSlugChar_ne (d : Char) {c : Char} (h : isSlugChar c = true)
    (hd : ¬((97 ≤ d.toNat ∧ d.toNat ≤ 122) ∨ (48 ≤ d.toNat ∧ d.toNat ≤ 57) ∨ d.toNat = 45)) :
    c ≠ d := by
  intro he
  subst he
  exact hd (isSlugChar_toNat h)

/-- Helper: slug characters are not whitespace. -/
theorem isSlugChar_not_ws {c : Char} (h : isSlugChar c = true) :
    isPyWhitespace c = false := by
  have h1 := isSlugChar_ne ' ' h (by decide)
  have h2 := isSlugChar_ne '\t' h (by decide)
  have h3 := isSlugChar_ne '\n' h (by decide)
  have h4 := isSlugChar_ne '\r' h (by decide)
  have h5 := isSlugChar_ne '\x0b' h (by decide)
  have h6 := isSlugChar_ne '\x0c' h (by decide)
  simp [isPyWhitespace, h1, h2, h3, h4, h5, h6]

/-- Helper: slug characters are neither whitespace nor underscore. -/
theorem isSlugChar_not_wsu {c : Char} (h : isSlugChar c = true) :
    isWsOrUnderscore c = false := by
  have h7 := isSlugChar_ne '_' h (by decide)
  simp [isWsOrUnderscore, isSlugChar_not_ws h, h7]

/-- Helper: slug characters survive the special-character removal. -/
theorem isSlugChar_kept {c : Char} (h : isSlugChar c = true) :
    isKeptChar c = true := by
  simp only [isSlugChar, Bool.or_eq_true] at h
  rcases h with h | h <;> simp [isKeptChar, h]

/-- Helper: `Char.toLower` fixes slug characters. -/
theorem isSlugChar_toLower {c : Char} (h : isSlugChar c = true) :
    Char.toLower c = c := by
  have hn := isSlugChar_toNat h
  show (if c.toNat ≥ 65 ∧ c.toNat ≤ 90 then Char.ofNat (c.toNat + 32) else c) = c
  rw [if_neg (by omega)]

/-- Helper: every character produced by `collapseRuns` is either the
replacement character or an input character not matched by the class. -/
theorem mem_collapseRuns (p : Char → Bool) (r : Char) (l : List Char) :
    ∀ c ∈ collapseRuns p r l, c = r ∨ (c ∈ l ∧ p c = false) := by
  induction l using collapseRuns.induct p r with
  | case1 =>
    intro c hc
    simp [collapseRuns] at hc
  | case2 a hp =>
    intro c hc
    simp [collapseRuns, hp] at hc
    exact Or.inl hc
  | case3 a hp =>
    intro c hc
    rw [Bool.not_eq_true] at hp
    simp [collapseRuns, hp] at hc
    subst hc
    exact Or.inr ⟨List.mem_singleton_self _, hp⟩
  | case4 a b t hab ih =>
    intro c hc
    rw [collapseRuns] at hc
    simp only [hab, if_true] at hc
    rcases ih c hc with h | ⟨hm, hpc⟩
    · exact Or.inl h
    · exact Or.inr ⟨List.mem_cons_of_mem a hm, hpc⟩
  | case5 a b t hab ih =>
    intro c hc
    rw [Bool.not_eq_true] at hab
    rw [collapseRuns] at hc
    simp only [hab, Bool.false_eq_true, if_false, List.mem_cons] at hc
    rcases hc with hc | hc
    · by_cases hpa : p a = true
      · rw [if_pos hpa] at hc
        exact Or.inl hc
      · rw [Bool.not_eq_true] at hpa
        rw [if_neg (by simp [hpa])] at hc
        subst hc
        exact Or.inr ⟨List.mem_cons_self _ _, hpa⟩
    · rcases ih c hc with h | ⟨hm, hpc⟩
      · exact Or.inl h
      · exact Or.inr ⟨List.mem_cons_of_mem a hm, hpc⟩

/-- Helper: the head of a collapsed list is the (possibly replaced) head of
the input. -/
theorem head?_collapseRuns (p : Char → Bool) (r : Char) (l : List Char) :
    (collapseRuns p r l).head? = l.head?.map (fun a => if p a then r else a) := by
  induction l using collapseRuns.induct p r with
  | case1 => rfl
  | case2 a hp => simp [collapseRuns, hp]
  | case3 a hp =>
    rw [Bool.not_eq_true] at hp
    simp [collapseRuns, hp]
  | case4 a b t hab ih =>
    rw [collapseRuns]
    simp only [hab, if_true]
    rw [ih]
    have hpab : p a = true ∧ p b = true := by
      rcases ha : p a <;> rcases hb : p b <;> simp_all
    simp [hpab.1, hpab.2]
  | case5 a b t hab ih =>
    rw [Bool.not_eq_true] at hab
    rw [collapseRuns]
    simp [hab]

/-- Helper: collapsing hyphen runs leaves no two adjacent hyphens. -/
theorem chain'_collapseRuns_hyphen (l : List Char) :
    noAdjacentHyphens (collapseRuns isHyphen '-' l) := by
  unfold noAdjacentHyphens
  induction l using collapseRuns.induct isHyphen '-' with
  | case1 => simp [collapseRuns]
  | case2 a hp => simp [collapseRuns, hp]
  | case3 a hp =>
    rw [Bool.not_eq_true] at hp
    simp [collapseRuns, hp]
  | case4 a b t hab ih =>
    rw [collapseRuns]
    simp only [hab, if_true]
    exact ih
  | case5 a b t hab ih =>
    rw [Bool.not_eq_true] at hab
    rw [collapseRuns]
    simp only [hab, Bool.false_eq_true, if_false]
    rw [List.chain'_cons']
    refine ⟨?_, ih⟩
    intro y hy
    rw [head?_collapseRuns] at hy
    simp only [List.head?_cons] at hy
    have hyv : y = if isHyphen b then '-' else b := by
      cases hb : isHyphen b <;> simp [hb] at hy <;> simp [← hy, hb]
    have hor : isHyphen a = false ∨ isHyphen b = false := by
      rcases ha : isHyphen a <;> rcases hb : isHyphen b <;> simp_all
    intro hcon
    obtain ⟨h1, h2⟩ := hcon
    rcases hor with hpa | hpb
    · rw [if_neg (by simp [hpa])] at h1
      have hcontra : isHyphen a = true := by simp [isHyphen, h1]
      rw [hpa] at hcontra
      exact absurd hcontra (by simp)
    · rw [hyv, if_neg (by simp [hpb])] at h2
      have hcontra : isHyphen b = true := by simp [isHyphen, h2]
      rw [hpb] at hcontra
      exact absurd hcontra (by simp)

/-- Helper: collapsing is the identity when no character matches the
class. -/
theorem collapseRuns_all_false (p : Char → Bool) (r : Char) (l : List Char)
    (h : ∀ c ∈ l, p c = false) : collapseRuns p r l = l := by
  induction l using collapseRuns.induct p r with
  | case1 => rfl
  | case2 a hp =>
    have := h a (List.mem_singleton_self a)
    rw [this] at hp
    exact absurd hp (by simp)
  | case3 a hp =>
    rw [Bool.not_eq_true] at hp
    simp [collapseRuns, hp]
  | case4 a b t hab ih =>
    have := h a (List.mem_cons_self a (b :: t))
    exact absurd hab (by simp [this])
  | case5 a b t hab ih =>
    rw [Bool.not_eq_true] at hab
    rw [collapseRuns]
    simp only [hab, Bool.false_eq_true, if_false]
    rw [if_neg (by simp [h a (List.mem_cons_self a (b :: t))])]
    rw [ih (fun c hc => h c (List.mem_cons_of_mem a hc))]

/-- Helper: collapsing hyphen runs is the identity when there are no
adjacent hyphens. -/
theorem collapseRuns_of_chain (l : List Char) (h : noAdjacentHyphens l) :
    collapseRuns isHyphen '-' l = l := by
  unfold noAdjacentHyphens at h
  induction l using collapseRuns.induct isHyphen '-' with
  | case1 => rfl
  | case2 a hp =>
    have ha : a = '-' := by simpa [isHyphen] using hp
    simp [collapseRuns, hp, ha]
  | case3 a hp =>
    rw [Bool.not_eq_true] at hp
    simp [collapseRuns, hp]
  | case4 a b t hab ih =>
    have hpab : isHyphen a = true ∧ isHyphen b = true := by
      rcases ha : isHyphen a <;> rcases hb : isHyphen b <;> simp_all
    have hr := (List.chain'_cons.mp h).1
    exact absurd hr (by simp [by simpa [isHyphen] using hpab.1,
      by simpa [isHyphen] using hpab.2])
  | case5 a b t hab ih =>
    rw [Bool.not_eq_true] at hab
    rw [collapseRuns]
    simp only [hab, Bool.false_eq_true, if_false]
    rw [ih (List.Chain'.tail h)]
    rcases ha : isHyphen a with _ | _
    · rw [if_neg (by simp [ha])]
    · have : a = '-' := by simpa [isHyphen] using ha
      rw [if_pos (by simp [ha]), this]

/-- Helper: `stripChars` yields a sublist. -/
theorem stripChars_sublist (p : Char → Bool) (l : List Char) :
    (stripChars p l).Sublist l := by
  unfold stripChars
  have h1 : (l.dropWhile p).Sublist l := List.dropWhile_sublist p
  have h2 : ((l.dropWhile p).reverse.dropWhile p).Sublist (l.dropWhile p).reverse :=
    List.dropWhile_sublist p
  have h3 := h2.reverse
  rw [List.reverse_reverse] at h3
  exact h3.trans h1

/-- Helper: the head of a stripped list never satisfies the stripped
class. -/
theorem stripChars_head? (p : Char → Bool) (l : List Char) :
    ∀ c, (stripChars p l).head? = some c → p c = false := by
  intro c hc
  unfold stripChars at hc
  obtain ⟨t, ht⟩ := List.dropWhile_suffix (l := (l.dropWhile p).reverse) p
  have hd : l.dropWhile p =
      ((l.dropWhile p).reverse.dropWhile p).reverse ++ t.reverse := by
    have := congrArg List.reverse ht
    simpa [List.reverse_append] using this.symm
  rcases he : ((l.dropWhile p).reverse.dropWhile p).reverse with _ | ⟨x, xs⟩
  · rw [he] at hc
    exact absurd hc (by simp)
  · rw [he] at hc
    simp only [List.head?_cons, Option.some.injEq] at hc
    have hdh : (l.dropWhile p).head? = some x := by
      rw [hd, he]
      rfl
    have hw := List.head?_dropWhile_not p l
    rw [hdh] at hw
    rw [← hc]
    exact hw

/-- Helper: the last element of a stripped list never satisfies the
stripped class. -/
theorem stripChars_getLast? (p : Char → Bool) (l : List Char) :
    ∀ c, (stripChars p l).getLast? = some c → p c = false := by
  intro c hc
  unfold stripChars at hc
  rw [List.getLast?_reverse] at hc
  have hw := List.head?_dropWhile_not p (l.dropWhile p).reverse
  rw [hc] at hw
  exact hw

/-- Helper: `Chain'` survives `dropWhile`. -/
theorem chain'_dropWhile {R : Char → Char → Prop} (p : Char → Bool) :
    ∀ l : List Char, List.Chain' R l → List.Chain' R (l.dropWhile p) := by
  intro l
  induction l with
  | nil => intro h; simp
  | cons a t ih =>
    intro h
    rw [List.dropWhile_cons]
    split
    · exact ih h.tail
    · exact h

/-- Helper: the no-adjacent-hyphen property survives `reverse`. -/
theorem noAdjacentHyphens_reverse {l : List Char} (h : noAdjacentHyphens l) :
    noAdjacentHyphens l.reverse := by
  unfold noAdjacentHyphens at *
  rw [List.chain'_reverse]
  exact h.imp (fun a b hr hc => hr ⟨hc.2, hc.1⟩)

/-- Helper: the no-adjacent-hyphen property survives `stripChars`. -/
theorem noAdjacentHyphens_stripChars (p : Char → Bool) (l : List Char)
    (h : noAdjacentHyphens l) : noAdjacentHyphens (stripChars p l) := by
  unfold stripChars
  exact noAdjacentHyphens_reverse
    (chain'_dropWhile p _ (noAdjacentHyphens_reverse (chain'_dropWhile p _ h)))

/-- Helper: dropping from the front is the identity when the head fails the
class. -/
theorem dropWhile_eq_self_of_head (p : Char → Bool) (l : List Char)
    (h : ∀ c, l.head? = some c → p c = false) : l.dropWhile p = l := by
  cases l with
  | nil => rfl
  | cons a t =>
    rw [List.dropWhile_cons, h a rfl]
    simp

/-- Helper: `stripChars` is the identity when neither end of the list
satisfies the class. -/
theorem stripChars_eq_self (p : Char → Bool) (l : List Char)
    (hh : ∀ c, l.head? = some c → p c = false)
    (hl : ∀ c, l.getLast? = some c → p c = false) : stripChars p l = l := by
  unfold stripChars
  rw [dropWhile_eq_self_of_head p l hh]
  rw [dropWhile_eq_self_of_head p l.reverse
    (fun c hc => hl c (by rwa [List.head?_reverse] at hc))]
  exact List.reverse_reverse l

/-- Helper: `stripChars` is the identity when no character satisfies the
class. -/
theorem stripChars_eq_self_of_all (p : Char → Bool) (l : List Char)
    (h : ∀ c ∈ l, p c = false) : stripChars p l = l := by
  refine stripChars_eq_self p l (fun c hc => ?_) (fun c hc => ?_)
  · rcases List.head?_eq_some_iff.mp hc with ⟨ys, hy⟩
    exact h c (by rw [hy]; exact List.mem_cons_self c ys)
  · have hm : c ∈ l := by
      have := List.mem_getLast?_eq_getLast (l := l) (x := c) hc
      rcases this with ⟨hne, hx⟩
      rw [hx]
      exact List.getLast_mem hne
    exact h c hm

/-- Helper: mapping a function that fixes every element is the identity. -/
theorem map_eq_self_of_fixed (f : Char → Char) (l : List Char)
    (h : ∀ c ∈ l, f c = c) : l.map f = l := by
  induction l with
  | nil => rfl
  | cons a t ih =>
    rw [List.map_cons, h a (List.mem_cons_self a t),
      ih (fun c hc => h c (List.mem_cons_of_mem a hc))]

/-- Helper: every character of the cleaned (pre-truncation) slug is a
lowercase alphanumeric or a hyphen. -/
theorem slugPre_chars (t : List Char) : ∀ c ∈ slugPre t, isSlugChar c = true := by
  intro c hc
  unfold slugPre at hc
  have hc4 := (stripChars_sublist isHyphen _).subset hc
  rcases mem_collapseRuns isHyphen '-' _ c hc4 with h | ⟨hc3, _⟩
  · subst h; decide
  · rcases mem_collapseRuns isWsOrUnderscore '-' _ c hc3 with h | ⟨hc2, hpw⟩
    · subst h; decide
    · have hk : isKeptChar c = true := (List.mem_filter.mp hc2).2
      simp only [isKeptChar, Bool.or_eq_true, decide_eq_true_eq] at hk
      rcases hk with (h1 | h2) | h3
      · simp [isSlugChar, h1]
      · exfalso
        simp [isWsOrUnderscore, h2] at hpw
      · simp [isSlugChar, h3]

/-- Helper: the cleaned slug has no adjacent hyphens. -/
theorem slugPre_chain (t : List Char) : noAdjacentHyphens (slugPre t) := by
  unfold slugPre
  exact noAdjacentHyphens_stripChars isHyphen _ (chain'_collapseRuns_hyphen _)

/-- Helper: the cleaned slug does not start with a hyphen. -/
theorem slugPre_head (t : List Char) :
    ∀ c, (slugPre t).head? = some c → c ≠ '-' := by
  intro c hc
  unfold slugPre at hc
  have := stripChars_head? isHyphen _ c hc
  simpa [isHyphen] using this

/-- Helper: the cleaned slug does not end with a hyphen. -/
theorem slugPre_last (t : List Char) :
    ∀ c, (slugPre t).getLast? = some c → c ≠ '-' := by
  intro c hc
  unfold slugPre at hc
  have := stripChars_getLast? isHyphen _ c hc
  simpa [isHyphen] using this

/-- Helper: when the input contains a hyphen, `rsplit` cuts exactly at the
last hyphen: the input is the result followed by a hyphen and the cut
tail. -/
theorem rsplit_decomp (l : List Char) (hcon : l.contains '-' = true) :
    ∃ w, l = rsplitBeforeLastHyphen l ++ '-' :: w := by
  unfold rsplitBeforeLastHyphen
  rw [if_pos hcon]
  have hmem : '-' ∈ l.reverse := by
    rw [List.mem_reverse]
    exact List.elem_iff.mp hcon
  obtain ⟨t, ht⟩ := List.dropWhile_suffix (l := l.reverse) (fun c => !(isHyphen c))
  have hy : ∃ z, l.reverse.dropWhile (fun c => !(isHyphen c)) = '-' :: z := by
    rcases he : l.reverse.dropWhile (fun c => !(isHyphen c)) with _ | ⟨x, xs⟩
    · exfalso
      have hall := List.dropWhile_eq_nil_iff.mp he
      have := hall '-' hmem
      simp [isHyphen] at this
    · have hx : x = '-' := by
        have hw := List.head?_dropWhile_not (fun c => !(isHyphen c)) l.reverse
        rw [he] at hw
        simp only [List.head?_cons] at hw
        simpa [isHyphen] using hw
      exact ⟨xs, by rw [hx]⟩
  obtain ⟨z, hz⟩ := hy
  rw [hz]
  rw [hz] at ht
  refine ⟨t.reverse, ?_⟩
  have hrev := congrArg List.reverse ht
  rw [List.reverse_reverse] at hrev
  rw [← hrev]
  simp [List.reverse_append]

/-- Helper: taking a positive number of elements keeps the head. -/
theorem head?_take_pos {l : List Char} {m : Nat} (hm : 0 < m) :
    (l.take m).head? = l.head? := by
  cases l with
  | nil => simp
  | cons a t =>
    cases m with
    | zero => exact absurd hm (by simp)
    | succ k => simp

/-- Helper: the last element of a list is a member. -/
theorem mem_of_getLast?_eq {l : List Char} {c : Char} (h : l.getLast? = some c) :
    c ∈ l := by
  rcases List.mem_getLast?_eq_getLast (l := l) (x := c) h with ⟨hne, hx⟩
  rw [hx]
  exact List.getLast_mem hne

/-- Helper: bundled output invariants of the truncation step. -/
theorem slugClean_invariants (m : Nat) (hm : 0 < m) (t : List Char) :
    (∀ c ∈ slugClean m t, isSlugChar c = true) ∧
    noAdjacentHyphens (slugClean m t) ∧
    (∀ c, (slugClean m t).head? = some c → c ≠ '-') ∧
    (∀ c, (slugClean m t).getLast? = some c → c ≠ '-') ∧
    (slugClean m t).length ≤ m := by
  unfold slugClean
  by_cases hlen : (slugPre t).length > m
  · rw [if_pos hlen]
    have htake_chars : ∀ c ∈ (slugPre t).take m, isSlugChar c = true :=
      fun c hc => slugPre_chars t c (List.take_subset m _ hc)
    have htake_chain : noAdjacentHyphens ((slugPre t).take m) :=
      List.Chain'.take (slugPre_chain t) m
    have htake_head : ∀ c, ((slugPre t).take m).head? = some c → c ≠ '-' := by
      intro c hc
      rw [head?_take_pos hm] at hc
      exact slugPre_head t c hc
    have htake_len : ((slugPre t).take m).length ≤ m := by
      rw [List.length_take]
      exact min_le_left _ _
    by_cases hcon : ((slugPre t).take m).contains '-' = true
    · obtain ⟨w, hw⟩ := rsplit_decomp _ hcon
      refine ⟨?_, ?_, ?_, ?_, ?_⟩
      · intro c hc
        refine htake_chars c ?_
        rw [hw]
        exact List.mem_append_left _ hc
      · have := htake_chain
        rw [hw] at this
        exact List.Chain'.left_of_append this
      · intro c hc
        refine htake_head c ?_
        rcases List.head?_eq_some_iff.mp hc with ⟨ys, hy⟩
        rw [hw, hy]
        rfl
      · intro c hc
        have hch := htake_chain
        rw [hw] at hch
        have hlink := (List.chain'_append.mp hch).2.2
        intro hcd
        subst hcd
        exact hlink '-' hc '-' rfl ⟨rfl, rfl⟩
      · have hlw := congrArg List.length hw
        rw [List.length_append, List.length_cons] at hlw
        omega
    · rw [rsplitBeforeLastHyphen, if_neg hcon]
      refine ⟨htake_chars, htake_chain, htake_head, ?_, htake_len⟩
      intro c hc
      intro hcd
      subst hcd
      have hmem := mem_of_getLast?_eq hc
      exact hcon (List.elem_iff.mpr hmem)
  · rw [if_neg hlen]
    exact ⟨slugPre_chars t, slugPre_chain t, slugPre_head t, slugPre_last t,
      by omega⟩

/-- Helper: when truncation happens and the truncated prefix contains a
hyphen, the output cuts the prefix exactly at its last hyphen. -/
theorem slugClean_boundary (m : Nat) (t : List Char)
    (hlen : (slugPre t).length > m)
    (hcon : ((slugPre t).take m).contains '-' = true) :
    ∃ w, (slugPre t).take m = slugClean m t ++ '-' :: w := by
  unfold slugClean
  rw [if_pos hlen]
  exact rsplit_decomp _ hcon

/-- Helper: bundled invariants of the final slug string: slug characters
only, no adjacent hyphens, no hyphen at either end, length at most 50. -/
theorem slugify_invariants (s : String) :
    (∀ c ∈ (slugify s).data, isSlugChar c = true) ∧
    noAdjacentHyphens (slugify s).data ∧
    (∀ c, (slugify s).data.head? = some c → c ≠ '-') ∧
    (∀ c, (slugify s).data.getLast? = some c → c ≠ '-') ∧
    (slugify s).data.length ≤ 50 := by
  unfold slugify
  by_cases he : (slugClean 50 s.data).isEmpty
  · rw [if_pos he]
    have himg : ("image" : String).data = ['i', 'm', 'a', 'g', 'e'] := rfl
    refine ⟨?_, ?_, ?_, ?_, ?_⟩
    · intro c hc
      rw [himg] at hc
      simp only [List.mem_cons, List.not_mem_nil, or_false] at hc
      rcases hc with h | h | h | h | h <;> subst h <;> decide
    · rw [himg]
      unfold noAdjacentHyphens
      simp [List.chain'_cons]
    · intro c hc
      rw [himg] at hc
      simp only [List.head?_cons, Option.some.injEq] at hc
      subst hc
      decide
    · intro c hc
      rw [himg] at hc
      simp at hc
      subst hc
      decide
    · rw [himg]
      decide
  · rw [if_neg he]
    exact slugClean_invariants 50 (by norm_num) s.data

/-- Helper: strings already satisfying the slug invariants are fixed points
of `slugify`. -/
theorem slugify_fixed (l : List Char) (hne : l ≠ [])
    (hchars : ∀ c ∈ l, isSlugChar c = true)
    (hchain : noAdjacentHyphens l)
    (hhead : ∀ c, l.head? = some c → c ≠ '-')
    (hlast : ∀ c, l.getLast? = some c → c ≠ '-')
    (hlen : l.length ≤ 50) :
    slugify (⟨l⟩ : String) = (⟨l⟩ : String) := by
  have hpre : slugPre l = l := by
    unfold slugPre
    rw [map_eq_self_of_fixed _ _ (fun c hc => isSlugChar_toLower (hchars c hc))]
    rw [stripChars_eq_self_of_all _ _ (fun c hc => isSlugChar_not_ws (hchars c hc))]
    rw [List.filter_eq_self.mpr (fun c hc => isSlugChar_kept (hchars c hc))]
    rw [collapseRuns_all_false _ _ _ (fun c hc => isSlugChar_not_wsu (hchars c hc))]
    rw [collapseRuns_of_chain _ hchain]
    exact stripChars_eq_self _ _
      (fun c hc => by simp [isHyphen, hhead c hc])
      (fun c hc => by simp [isHyphen, hlast c hc])
  have hclean : slugClean 50 l = l := by
    unfold slugClean
    rw [hpre]
    rw [if_neg (by omega)]
  unfold slugify
  rw [show (⟨l⟩ : String).data = l from rfl, hclean]
  rw [if_neg (by simp [hne])]

/-- C5 counterexample: on an input that is a single 51-character word, the
truncation step cuts mid-word — the output is the bare 50-character prefix
and the next character of the cleaned slug is a letter, not a word
boundary — refuting "truncation always ends at a word boundary". -/
theorem slugify_wordsplit_counterexample :
    slugify (⟨List.replicate 51 'a'⟩ : String) = (⟨List.replicate 50 'a'⟩ : String) ∧
    (slugPre (List.replicate 51 'a')).drop 50 = ['a'] := by
  exact ⟨by decide, by decide⟩

/-- C5 amended: every slug consists of lowercase alphanumerics and
hyphens with no two hyphens adjacent, never starts or ends with a hyphen,
has length at most 50, and is the fallback `"image"` exactly when the
cleaned result is empty; truncation ends at a word boundary (the cut
falls on a hyphen of the cleaned slug) whenever the first 50 characters of
the cleaned slug contain a hyphen — but when they do not, the output is
the bare 50-character prefix, which can split a word. -/
theorem slugify_spec :
    ∀ s : String,
      (∀ c ∈ (slugify s).data, isSlugChar c = true) ∧
      noAdjacentHyphens (slugify s).data ∧
      (∀ c, (slugify s).data.head? = some c → c ≠ '-') ∧
      (∀ c, (slugify s).data.getLast? = some c → c ≠ '-') ∧
      (slugify s).data.length ≤ 50 ∧
      ((slugClean 50 s.data).isEmpty = true → slugify s = "image") ∧
      ((slugPre s.data).length > 50 → ((slugPre s.data).take 50).contains '-' = true →
        ∃ w, (slugPre s.data).take 50 = slugClean 50 s.data ++ '-' :: w) := by
  intro s
  obtain ⟨h1, h2, h3, h4, h5⟩ := slugify_invariants s
  refine ⟨h1, h2, h3, h4, h5, ?_, ?_⟩
  · intro he
    unfold slugify
    rw [if_pos he]
  · intro hl hc
    exact slugClean_boundary 50 s.data hl hc

/-- C5 amended, witness: a long multi-word prompt is truncated exactly at
a hyphen of its cleaned slug. -/
theorem slugify_spec_witness :
    ∃ w, (slugPre ("the quick brown fox jumps over the lazy dog again and again").data).take 50 =
      slugClean 50 ("the quick brown fox jumps over the lazy dog again and again").data ++ '-' :: w :=
  (slugify_spec "the quick brown fox jumps over the lazy dog again and again").2.2.2.2.2.2
    (by decide) (by decide)

/-- C6: the slug function is idempotent — applying it to its own output
returns the output unchanged. -/
theorem slugify_idempotent : ∀ s : String, slugify (slugify s) = slugify s := by
  intro s
  by_cases he : (slugClean 50 s.data).isEmpty
  · have h1 : slugify s = "image" := by
      unfold slugify
      rw [if_pos he]
    rw [h1]
    decide
  · have h1 : slugify s = ⟨slugClean 50 s.data⟩ := by
      unfold slugify
      rw [if_neg he]
    obtain ⟨hc1, hc2, hc3, hc4, hc5⟩ := slugify_invariants s
    have hne : (slugify s).data ≠ [] := by
      rw [h1]
      intro hx
      apply he
      simpa [List.isEmpty_iff] using hx
    exact slugify_fixed (slugify s).data hne hc1 hc2 hc3 hc4 hc5
